import Mathlib

/-!
Shallow embedding of `src/mono2D.py` (class `Mono2D`), a multi-scale monogenic
signal filter bank.  Grid coordinates are embedded over `ℚ` (the index
arithmetic of `mesh_range` is exact), transcendental quantities over `ℝ`.
The per-sample min-max normalisation `scale_max_min` returns `Option ℝ`:
`none` models the IEEE `0/0` (NaN) the source produces when the map is
spatially constant.  Shape semantics of the tensor pipeline (broadcasting of
the `(N,C,H,W)` spectrum against the `(nscale,H,W)` mask stack, `sum(dim=1)`,
`torch.stack(dim=1)`) are embedded as an explicit shape calculus on `List ℕ`.
-/

namespace Mono2D

/-- One axis of `mesh_range`: `torch.arange(-(n-1)/2, n/2)/(n-1)` for odd `n`,
`torch.arange(-n/2, n/2)/n` for even `n`; entry `k` of the resulting
1-D range. -/
def axisRange (n : ℕ) (k : Fin n) : ℚ :=
  if n % 2 = 1 then ((k.val : ℚ) - ((n : ℚ) - 1) / 2) / ((n : ℚ) - 1)
  else ((k.val : ℚ) - (n : ℚ) / 2) / (n : ℚ)

/-- Index action of `torch.fft.ifftshift` on one axis of length `n`:
output position `k` reads input position `(k + n/2) % n`. -/
def shiftIdx (n : ℕ) (k : Fin n) : Fin n :=
  ⟨(k.val + n / 2) % n, Nat.mod_lt _ (Nat.lt_of_le_of_lt (Nat.zero_le _) k.isLt)⟩

/-- `u1` of `mesh_range` after `ifftshift`: with `indexing` set to the xy
convention, `u1[i,j] = xrange[j]`, then both axes are corner-shifted. -/
def u1 (rows cols : ℕ) (_i : Fin rows) (j : Fin cols) : ℚ :=
  axisRange cols (shiftIdx cols j)

/-- `u2` of `mesh_range` after `ifftshift`: `u2[i,j] = yrange[i]`, shifted. -/
def u2 (rows cols : ℕ) (i : Fin rows) (_j : Fin cols) : ℚ :=
  axisRange rows (shiftIdx rows i)

/-- `radius = torch.sqrt(u1**2 + u2**2)` of `mesh_range`. -/
noncomputable def radius (rows cols : ℕ) (i : Fin rows) (j : Fin cols) : ℝ :=
  Real.sqrt (((u1 rows cols i j : ℝ)) ^ 2 + ((u2 rows cols i j : ℝ)) ^ 2)

/-- The radius grid after the in-place patch `radius[0,0] = 1.` performed at
the start of `get_filters`. -/
noncomputable def radiusP (rows cols : ℕ) (i : Fin rows) (j : Fin cols) : ℝ :=
  if i.val = 0 ∧ j.val = 0 then 1 else radius rows cols i j

/-- `lowpassfilter(sze, cutoff, n)`: `1 / (1 + (radius/cutoff)**(2*n))`, on a
freshly built (unpatched) radius grid. -/
noncomputable def lowpassfilter (rows cols : ℕ) (cutoff : ℝ) (n : ℕ)
    (i : Fin rows) (j : Fin cols) : ℝ :=
  1 / (1 + (radius rows cols i j / cutoff) ^ (2 * n))

/-- Fixed lower wavelength bound `self.min_wl = 3.0`. -/
noncomputable def min_wl : ℝ := 3.0

/-- Fixed upper wavelength bound `self.max_wl = 128.0`. -/
noncomputable def max_wl : ℝ := 128.0

/-- `torch.nn.functional.sigmoid`. -/
noncomputable def sigmoid (x : ℝ) : ℝ := 1 / (1 + Real.exp (-x))

/-- `rescale_wls`: `min_wl + wls * (max_wl - min_wl)`. -/
noncomputable def rescale_wls (w : ℝ) : ℝ := min_wl + w * (max_wl - min_wl)

/-- `get_wls` applied to one unconstrained per-scale wavelength code. -/
noncomputable def get_wls (c : ℝ) : ℝ := rescale_wls (sigmoid c)

/-- `get_sigmaonf`: sigmoid of the unconstrained bandwidth code. -/
noncomputable def get_sigmaonf (c : ℝ) : ℝ := sigmoid c

/-- The supplied-wavelength branch of `initialize_wls`: normalise to
`(wl - min_wl)/(max_wl - min_wl)` and apply the logit `log(p/(1-p))`. -/
noncomputable def encode_wls (x : ℝ) : ℝ :=
  Real.log (((x - min_wl) / (max_wl - min_wl)) / (1 - (x - min_wl) / (max_wl - min_wl)))

/-- The supplied-bandwidth branch of `initialize_sigmaonf`:
`log(sigmaonf/(1 - sigmaonf))`. -/
noncomputable def encode_sigmaonf (x : ℝ) : ℝ := Real.log (x / (1 - x))

/-- Centre frequency `fo = 1.0 / wls` for one decoded wavelength code. -/
noncomputable def fo (c : ℝ) : ℝ := 1 / get_wls c

/-- `compute_logGabor` at scale `s`, pixel `(i,j)`:
`exp((-(log(radius/fo))**2) / (2*log(sigmaonf)**2))` on the patched radius. -/
noncomputable def compute_logGabor (S rows cols : ℕ) (wcode : Fin S → ℝ) (bcode : ℝ)
    (s : Fin S) (i : Fin rows) (j : Fin cols) : ℝ :=
  Real.exp (-(Real.log (radiusP rows cols i j / fo (wcode s))) ^ 2 /
    (2 * (Real.log (get_sigmaonf bcode)) ^ 2))

/-- Fixed low-pass cutoff `self.cut_off = 0.4`. -/
noncomputable def cut_off : ℝ := 0.4

/-- Fixed low-pass order `self.g = 10`. -/
def g : ℕ := 10

/-- `lgf = lgf * lp` in `get_filters`: log-Gabor mask times low-pass mask. -/
noncomputable def lgf_combined (S rows cols : ℕ) (wcode : Fin S → ℝ) (bcode : ℝ)
    (s : Fin S) (i : Fin rows) (j : Fin cols) : ℝ :=
  compute_logGabor S rows cols wcode bcode s i j * lowpassfilter rows cols cut_off g i j

/-- The combined mask after the in-place write `lgf[0,0] = 0` in
`get_filters`.  `lgf` has shape `(nscale, rows, cols)`, so `lgf[0,0]` selects
scale 0, row 0 (an entire row of `cols` entries), and the write zeroes exactly
the entries with `s = 0` and `i = 0`. -/
noncomputable def lgf_final (S rows cols : ℕ) (wcode : Fin S → ℝ) (bcode : ℝ)
    (s : Fin S) (i : Fin rows) (j : Fin cols) : ℝ :=
  if s.val = 0 ∧ i.val = 0 then 0 else lgf_combined S rows cols wcode bcode s i j

/-- Fixed noise-compensation threshold `self.T = 0`. -/
noncomputable def T : ℝ := 0

/-- Fixed division guard `self.episilon = 0.0001`. -/
noncomputable def episilon : ℝ := 0.0001

/-- Per-scale `h_Amp2 = h1**2 + h2**2` at one pixel. -/
noncomputable def h_Amp2 (h1 h2 : ℝ) : ℝ := h1 ^ 2 + h2 ^ 2

/-- Per-scale amplitude `An = sqrt(f**2 + h_Amp2)` at one pixel. -/
noncomputable def An_s (f h1 h2 : ℝ) : ℝ := Real.sqrt (f ^ 2 + h_Amp2 h1 h2)

/-- Per-scale `symmetry_energy = sqrt(h_Amp2) - abs(f)` at one pixel. -/
noncomputable def symmetry_energy_s (f h1 h2 : ℝ) : ℝ :=
  Real.sqrt (h_Amp2 h1 h2) - |f|

/-- `An = torch.sum(An, dim=1)`: the dim-1 aggregate of the per-scale
amplitudes at one pixel, from arbitrary per-scale spatial responses. -/
noncomputable def An_agg (D : ℕ) (f h1 h2 : Fin D → ℝ) : ℝ :=
  ∑ d, An_s (f d) (h1 d) (h2 d)

/-- `symmetry_energy = torch.sum(symmetry_energy, dim=1)` at one pixel. -/
noncomputable def symmetry_energy_agg (D : ℕ) (f h1 h2 : Fin D → ℝ) : ℝ :=
  ∑ d, symmetry_energy_s (f d) (h1 d) (h2 d)

/-- `phase_asym = torch.clamp(symmetry_energy - self.T, min=0) / (An + self.episilon)`. -/
noncomputable def phase_asym (sE An : ℝ) : ℝ := max (sE - T) 0 / (An + episilon)

/-- `torch.amin` of one sample map over its spatial extent. -/
noncomputable def smin {m n : ℕ} (x : Fin (m + 1) → Fin (n + 1) → ℝ) : ℝ :=
  Finset.univ.inf' Finset.univ_nonempty (fun p : Fin (m + 1) × Fin (n + 1) => x p.1 p.2)

/-- `torch.amax` of one sample map over its spatial extent. -/
noncomputable def smax {m n : ℕ} (x : Fin (m + 1) → Fin (n + 1) → ℝ) : ℝ :=
  Finset.univ.sup' Finset.univ_nonempty (fun p : Fin (m + 1) × Fin (n + 1) => x p.1 p.2)

/-- `scale_max_min`: `(x - x_min) / (x_max - x_min)` per sample over the
spatial dimensions.  When `x_max - x_min = 0` (spatially constant map) the
source divides `0` by `0` in IEEE arithmetic, producing NaN; that undefined
value is modelled as `none`. -/
noncomputable def scale_max_min {m n : ℕ} (x : Fin (m + 1) → Fin (n + 1) → ℝ)
    (i : Fin (m + 1)) (j : Fin (n + 1)) : Option ℝ :=
  if smax x - smin x = 0 then none else some ((x i j - smin x) / (smax x - smin x))

/-- `scale_max_min` as applied by `forward` to the phase map, whose pixels may
hold NaN (`none`): `torch.amin` and `torch.amax` propagate NaN, so a single
undefined pixel makes `x_min`, `x_max` and hence every normalised value of the
sample NaN; on a fully defined map this is `scale_max_min` of the underlying
real-valued map. -/
noncomputable def scale_max_min_nan {m n : ℕ} (x : Fin (m + 1) → Fin (n + 1) → Option ℝ)
    (i : Fin (m + 1)) (j : Fin (n + 1)) : Option ℝ :=
  if h : ∀ p : Fin (m + 1) × Fin (n + 1), (x p.1 p.2).isSome = true then
    scale_max_min (fun a b => (x a b).get (h ⟨a, b⟩)) i j
  else none

/-- `torch.atan2 y x`, embedded as the argument of the complex number
`x + i*y`, with range `(-π, π]`. -/
noncomputable def atan2 (y x : ℝ) : ℝ := Complex.arg ⟨x, y⟩

/-- The pre-normalisation orientation map `ori = torch.atan2(-h2, h1)` from
the aggregated odd responses. -/
noncomputable def ori {m n : ℕ} (h1 h2 : Fin (m + 1) → Fin (n + 1) → ℝ)
    (i : Fin (m + 1)) (j : Fin (n + 1)) : ℝ :=
  atan2 (-(h2 i j)) (h1 i j)

/-- The pre-normalisation phase map
`ft = torch.atan(f/torch.sqrt(h1**2 + h2**2))` from the aggregated responses,
with the IEEE semantics of the division made explicit.  When the denominator
`sqrt(h1**2 + h2**2)` is zero the source computes `atan(f/0.0)`: for `f > 0`
this is `atan(inf) = π/2`, for `f < 0` it is `atan(-inf) = -π/2`, and for
`f = 0` it is `atan(0.0/0.0) = atan(NaN) = NaN`, modelled as `none`. -/
noncomputable def ft {m n : ℕ} (f h1 h2 : Fin (m + 1) → Fin (n + 1) → ℝ)
    (i : Fin (m + 1)) (j : Fin (n + 1)) : Option ℝ :=
  if Real.sqrt ((h1 i j) ^ 2 + (h2 i j) ^ 2) = 0 then
    if f i j = 0 then none
    else if 0 < f i j then some (Real.pi / 2) else some (-(Real.pi / 2))
  else some (Real.arctan (f i j / Real.sqrt ((h1 i j) ^ 2 + (h2 i j) ^ 2)))

/-- Broadcasting of two tensor dimensions (PyTorch rule): equal sizes pass
through, a size of 1 stretches, anything else is an error. -/
def bcast2 (a b : ℕ) : Option ℕ :=
  if a = b then some a else if a = 1 then some b else if b = 1 then some a else none

/-- Shape of `IMF = IM * lgf`: the `(N,C,H,W)` spectrum broadcast against the
`(nscale,H,W)` mask stack. -/
def IMFShape (N C H W S : ℕ) : Option (List ℕ) :=
  (bcast2 C S).map (fun d => [N, d, H, W])

/-- Shape action of `torch.sum(·, dim=1)`. -/
def sumDim1Shape : List ℕ → Option (List ℕ)
  | a :: _ :: rest => some (a :: rest)
  | _ => none

/-- Shape of each of the six aggregates `torch.sum(·, dim=1)` of the per-scale
quantities derived from `IMF`. -/
def aggShape (N C H W S : ℕ) : Option (List ℕ) :=
  (IMFShape N C H W S).bind sumDim1Shape

/-- The four output-selection flags of the constructor. -/
structure OutFlags where
  return_input : Bool
  return_phase : Bool
  return_ori : Bool
  return_phase_asym : Bool

/-- The list of shapes appended to `out` in `forward`, in source order:
`x` (input echo), `ft` (phase), `ori` (orientation), `phase_asym`. -/
def outShapes (fl : OutFlags) (xShape aggS : List ℕ) : List (List ℕ) :=
  (if fl.return_input then [xShape] else []) ++
  (if fl.return_phase then [aggS] else []) ++
  (if fl.return_ori then [aggS] else []) ++
  (if fl.return_phase_asym then [aggS] else [])

/-- Shape action of `torch.stack(out, dim=1)`: all stacked tensors must have
identical shapes, and a new axis of length `len(out)` is inserted at
position 1; stacking an empty list is an error. -/
def stackDim1 : List (List ℕ) → Option (List ℕ)
  | [] => none
  | s :: rest =>
      if rest.all (fun t => t == s) then some (s.take 1 ++ [rest.length + 1] ++ s.drop 1)
      else none

/-- Shape of the value returned by `forward` on an `(N,C,H,W)` batch with
`nscale = S`, or `none` when a step of `forward` fails. -/
def forwardShape (N C H W S : ℕ) (fl : OutFlags) : Option (List ℕ) :=
  (aggShape N C H W S).bind (fun aggS => stackDim1 (outShapes fl [N, C, H, W] aggS))

/-- Output channel labels, in the fixed emission order of `forward`. -/
inductive Feat
  | inp
  | phase
  | orient
  | pasym
deriving DecidableEq

/-- Whether the flag controlling a given output channel is enabled. -/
def featEnabled (fl : OutFlags) : Feat → Bool
  | Feat.inp => fl.return_input
  | Feat.phase => fl.return_phase
  | Feat.orient => fl.return_ori
  | Feat.pasym => fl.return_phase_asym

/-- The sequence of channels appended to `out` in `forward`, in source order. -/
def outFeats (fl : OutFlags) : List Feat :=
  (if fl.return_input then [Feat.inp] else []) ++
  (if fl.return_phase then [Feat.phase] else []) ++
  (if fl.return_ori then [Feat.orient] else []) ++
  (if fl.return_phase_asym then [Feat.pasym] else [])

/-- Constructor configuration of `Mono2D`: scale count plus the optionally
supplied bandwidth and wavelength initial values (numeric content). -/
structure MonoConfig where
  nscale : ℤ
  sigmaonf : Option ℚ
  wls : Option (List ℚ)

/-- The `assert sigmaonf > 0 and sigmaonf < 1` guard of `initialize_sigmaonf`
(no check on the random-initialisation branch). -/
def checkSigmaonf : Option ℚ → Bool
  | none => true
  | some s => decide (0 < s ∧ s < 1)

/-- The `assert np.all(wls > 0)` guard of `initialize_wls`
(no check on the random-initialisation branch). -/
def checkWls : Option (List ℚ) → Bool
  | none => true
  | some l => l.all (fun w => decide (0 < w))

/-- The validation performed by `__init__`, in source order: `assert nscale > 0`,
then the wavelength guard (line 65), then the bandwidth guard (line 66);
each failing assert raises synchronously at that point. -/
def initMono (cfg : MonoConfig) : Except String Unit :=
  if 0 < cfg.nscale then
    if checkWls cfg.wls then
      if checkSigmaonf cfg.sigmaonf then Except.ok ()
      else Except.error "sigmaonf must lie strictly in the open unit interval"
    else Except.error "cannot have a negative wavelength"
  else Except.error "nscale must be positive"

/-- Python `n % 1` for a rational `n`: the fractional part `n - floor n`. -/
def fracPart (q : ℚ) : ℚ := q - ⌊q⌋

/-- The guards at the top of `lowpassfilter`, in source order:
`cutoff < 0 or cutoff > 0.5` raises, then `n % 1 != 0 or n < 1` raises. -/
def lowpassChecks (cutoff n : ℚ) : Except String Unit :=
  if cutoff < 0 ∨ cutoff > 0.5 then
    Except.error "cutoff frequency must be between 0 and 0.5"
  else if fracPart n ≠ 0 ∨ n < 1 then
    Except.error "n must be an integer greater or equal to 1"
  else Except.ok ()

/-- Concrete aggregated even response used to exhibit a non-constant phase map. -/
noncomputable def wF : Fin 1 → Fin 2 → ℝ := fun _ j => if j.val = 0 then 0 else 1

/-- Concrete aggregated odd response `h1` used to exhibit non-constant maps. -/
noncomputable def wH1 : Fin 1 → Fin 2 → ℝ := fun _ j => if j.val = 0 then 1 else -1

/-- Concrete aggregated odd response `h2` used to exhibit non-constant maps. -/
noncomputable def wH2 : Fin 1 → Fin 2 → ℝ := fun _ _ => 0

/-- Constant aggregated `h1` response on a 1×1 grid (degenerate sample). -/
noncomputable def cH1 : Fin 1 → Fin 1 → ℝ := fun _ _ => 1

/-- Constant aggregated `h2` response on a 1×1 grid (degenerate sample). -/
noncomputable def cH2 : Fin 1 → Fin 1 → ℝ := fun _ _ => 0

/-! ### Helper lemmas about the frequency mesh -/

/-- The even exponent `2*n` makes the low-pass denominator term nonnegative. -/
theorem lowpass_term_nonneg (rows cols : ℕ) (cutoff : ℝ) (n : ℕ)
    (i : Fin rows) (j : Fin cols) :
    0 ≤ (radius rows cols i j / cutoff) ^ (2 * n) := by
  rw [pow_mul]
  exact pow_nonneg (sq_nonneg _) n

/-- The low-pass mask is strictly positive (for any cutoff, in exact
arithmetic). -/
theorem lowpassfilter_pos (rows cols : ℕ) (cutoff : ℝ) (n : ℕ)
    (i : Fin rows) (j : Fin cols) :
    0 < lowpassfilter rows cols cutoff n i j := by
  have h := lowpass_term_nonneg rows cols cutoff n i j
  unfold lowpassfilter
  exact div_pos one_pos (by linarith)

/-- The sigmoid takes values strictly between 0 and 1. -/
theorem sigmoid_mem (x : ℝ) : 0 < sigmoid x ∧ sigmoid x < 1 := by
  have he : 0 < Real.exp (-x) := Real.exp_pos _
  constructor
  · exact div_pos one_pos (by linarith)
  · rw [sigmoid, div_lt_one (by linarith)]
    linarith

/-- The sigmoid inverts the logit on the open unit interval. -/
theorem sigmoid_logit (p : ℝ) (h0 : 0 < p) (h1 : p < 1) :
    sigmoid (Real.log (p / (1 - p))) = p := by
  have hr : 0 < p / (1 - p) := div_pos h0 (by linarith)
  unfold sigmoid
  rw [Real.exp_neg, Real.exp_log hr]
  rw [show (p / (1 - p))⁻¹ = (1 - p) / p from inv_div _ _]
  rw [show 1 + (1 - p) / p = 1 / p by field_simp]
  simp

/-- Claim C4: every decoded wavelength lies strictly in (3, 128) and every
decoded bandwidth strictly in (0, 1); decoding inverts encoding exactly (so in
particular within any floating tolerance) for wavelengths in (3, 128) and
bandwidths in (0, 1). -/
theorem param_reparam_spec :
    (∀ w : ℝ, 3 < get_wls w ∧ get_wls w < 128) ∧
    (∀ b : ℝ, 0 < get_sigmaonf b ∧ get_sigmaonf b < 1) ∧
    (∀ x : ℝ, 3 < x → x < 128 → get_wls (encode_wls x) = x) ∧
    (∀ x : ℝ, 0 < x → x < 1 → get_sigmaonf (encode_sigmaonf x) = x) := by
  refine ⟨fun w => ?_, fun b => sigmoid_mem b, fun x hx3 hx128 => ?_, fun x h0 h1 => ?_⟩
  · obtain ⟨hs0, hs1⟩ := sigmoid_mem w
    unfold get_wls rescale_wls min_wl max_wl
    norm_num
    constructor <;> nlinarith
  · have hp0 : 0 < (x - min_wl) / (max_wl - min_wl) := by
      have ha : (0 : ℝ) < x - min_wl := by unfold min_wl; norm_num; linarith
      have hb : (0 : ℝ) < max_wl - min_wl := by unfold min_wl max_wl; norm_num
      exact div_pos ha hb
    have hp1 : (x - min_wl) / (max_wl - min_wl) < 1 := by
      unfold min_wl max_wl
      rw [div_lt_one (by norm_num)]
      norm_num
      linarith
    unfold get_wls encode_wls rescale_wls
    rw [sigmoid_logit _ hp0 hp1]
    unfold min_wl max_wl
    field_simp
  · unfold get_sigmaonf encode_sigmaonf
    exact sigmoid_logit x h0 h1

/-- Witness for C4: range membership at code 0 and exact round trips at
wavelength 65 and bandwidth 0.55 (the spec's example value). -/
theorem param_reparam_spec_witness :
    (3 < get_wls 0 ∧ get_wls 0 < 128) ∧
    (0 < get_sigmaonf 0 ∧ get_sigmaonf 0 < 1) ∧
    get_wls (encode_wls 65) = 65 ∧
    get_sigmaonf (encode_sigmaonf 0.55) = 0.55 :=
  ⟨param_reparam_spec.1 0, param_reparam_spec.2.1 0,
   param_reparam_spec.2.2.1 65 (by norm_num) (by norm_num),
   param_reparam_spec.2.2.2 0.55 (by norm_num) (by norm_num)⟩

/-! ### Claim C6 -/

/-- Claim C6, code bug: `get_filters` intends (per its own comment) to set the
value at the zero-frequency point of the combined mask back to zero, but
`lgf[0,0]` on the `(nscale, rows, cols)` tensor addresses scale 0, row 0, so
the write zeroes the entire first row of scale 0 only.  At the failing input
`nscale = 2`, rows = cols = 4, wavelength codes 0 and bandwidth code 0: the
zero-frequency entry of scale 1 stays strictly positive (first conjunct,
contradicting the claim that it is exactly 0 for every scale), while the
non-zero-frequency entry (0,1) of scale 0 is wrongly forced to 0 (second
conjunct). -/
theorem lgf_zero_freq_bug :
    0 < lgf_final 2 4 4 (fun _ => 0) 0 ⟨1, by norm_num⟩ ⟨0, by norm_num⟩ ⟨0, by norm_num⟩ ∧
    lgf_final 2 4 4 (fun _ => 0) 0 ⟨0, by norm_num⟩ ⟨0, by norm_num⟩ ⟨1, by norm_num⟩ = 0 := by
  constructor
  · unfold lgf_final
    rw [if_neg (by norm_num)]
    exact mul_pos (Real.exp_pos _) (lowpassfilter_pos 4 4 cut_off g _ _)
  · unfold lgf_final
    exact if_pos ⟨rfl, rfl⟩

/-! ### Claim C8 -/

/-- Claim C8: the phase-asymmetry map equals
`max(symmetryEnergy - T, 0) / (An + episilon)` with `T = 0` and
`episilon = 1e-4`; the aggregated amplitude `An` (a sum of square roots) is
nonnegative, so the denominator is strictly positive — the division is defined
even where `An` is zero — and the result is everywhere nonnegative. -/
theorem phase_asym_spec (D : ℕ) (f h1 h2 : Fin D → ℝ) :
    T = 0 ∧ episilon = 1 / 10000 ∧
    phase_asym (symmetry_energy_agg D f h1 h2) (An_agg D f h1 h2) =
      max (symmetry_energy_agg D f h1 h2 - T) 0 / (An_agg D f h1 h2 + episilon) ∧
    0 ≤ An_agg D f h1 h2 ∧
    0 < An_agg D f h1 h2 + episilon ∧
    0 ≤ phase_asym (symmetry_energy_agg D f h1 h2) (An_agg D f h1 h2) := by
  have hAn : 0 ≤ An_agg D f h1 h2 :=
    Finset.sum_nonneg fun d _ => Real.sqrt_nonneg _
  have heps : (0 : ℝ) < episilon := by unfold episilon; norm_num
  have hden : 0 < An_agg D f h1 h2 + episilon := by linarith
  refine ⟨rfl, by unfold episilon; norm_num, rfl, hAn, hden, ?_⟩
  unfold phase_asym
  exact div_nonneg (le_max_right _ _) (le_of_lt hden)

/-! ### Claim C9 -/

/-- The per-sample spatial minimum is a lower bound of the map. -/
theorem smin_le {m n : ℕ} (x : Fin (m + 1) → Fin (n + 1) → ℝ)
    (i : Fin (m + 1)) (j : Fin (n + 1)) : smin x ≤ x i j :=
  Finset.inf'_le (fun p : Fin (m + 1) × Fin (n + 1) => x p.1 p.2)
    (Finset.mem_univ (⟨i, j⟩ : Fin (m + 1) × Fin (n + 1)))

/-- The per-sample spatial maximum is an upper bound of the map. -/
theorem le_smax {m n : ℕ} (x : Fin (m + 1) → Fin (n + 1) → ℝ)
    (i : Fin (m + 1)) (j : Fin (n + 1)) : x i j ≤ smax x :=
  Finset.le_sup' (fun p : Fin (m + 1) × Fin (n + 1) => x p.1 p.2)
    (Finset.mem_univ (⟨i, j⟩ : Fin (m + 1) × Fin (n + 1)))

/-- On a spatially non-constant map, `scale_max_min` is defined at every pixel
and its value lies in [0, 1]. -/
theorem scale_max_min_mem {m n : ℕ} (x : Fin (m + 1) → Fin (n + 1) → ℝ)
    (hx : ¬ ∀ (i : Fin (m + 1)) (j : Fin (n + 1)) (i2 : Fin (m + 1)) (j2 : Fin (n + 1)),
      x i j = x i2 j2) :
    ∀ (i : Fin (m + 1)) (j : Fin (n + 1)),
      ∃ q, scale_max_min x i j = some q ∧ 0 ≤ q ∧ q ≤ 1 := by
  have hne : smax x - smin x ≠ 0 := by
    intro h
    apply hx
    intro i j i2 j2
    have h1 := smin_le x i j
    have h2 := le_smax x i j
    have h3 := smin_le x i2 j2
    have h4 := le_smax x i2 j2
    linarith
  have hle : smin x ≤ smax x :=
    le_trans (smin_le x ⟨0, Nat.succ_pos m⟩ ⟨0, Nat.succ_pos n⟩)
      (le_smax x ⟨0, Nat.succ_pos m⟩ ⟨0, Nat.succ_pos n⟩)
  have hlt : 0 < smax x - smin x :=
    lt_of_le_of_ne (sub_nonneg.mpr hle) (Ne.symm hne)
  intro i j
  refine ⟨(x i j - smin x) / (smax x - smin x), ?_, ?_, ?_⟩
  · unfold scale_max_min
    rw [if_neg hne]
  · exact div_nonneg (sub_nonneg.mpr (smin_le x i j)) (le_of_lt hlt)
  · rw [div_le_one hlt]
    exact sub_le_sub_right (le_smax x i j) _

/-- Counterexample to C9 as stated: the orientation map of the 1×1 sample with
constant aggregated responses `h1 = 1`, `h2 = 0` is spatially constant, and
`scale_max_min` on it is `none` — the source computes `0/0` (IEEE NaN), so the
result is left undefined rather than being explicitly defined (e.g. as 0). -/
theorem scale_max_min_constant_counterexample :
    scale_max_min (ori cH1 cH2) ⟨0, Nat.one_pos⟩ ⟨0, Nat.one_pos⟩ = none := by
  have h : smax (ori cH1 cH2) - smin (ori cH1 cH2) = 0 := by
    unfold smax smin ori cH1 cH2
    rw [Finset.sup'_const, Finset.inf'_const, sub_self]
  unfold scale_max_min
  rw [if_pos h]

/-- Claim C9, amended: after per-sample min-max normalisation the orientation
map lies in [0, 1] at every pixel of every sample whose pre-normalisation map
is not spatially constant, and so does the phase map provided it is
additionally defined (non-NaN) at every pixel — at a pixel where the
aggregated responses satisfy `h1 = h2 = 0` together with `f = 0` the source
computes `atan(0/0) = NaN`, and `torch.amin`/`torch.amax` propagate that NaN
over the sample, leaving every normalised phase value undefined.  For a
spatially constant pre-normalisation map the source divides 0 by 0, so the
result is the undefined NaN (modelled `none`), not an explicitly defined
value.  (The original claim required the degenerate result to be explicitly
defined, e.g. as 0.) -/
theorem normalized_maps_spec (m n : ℕ) (f h1 h2 : Fin (m + 1) → Fin (n + 1) → ℝ) :
    ((¬ ∀ (i : Fin (m + 1)) (j : Fin (n + 1)) (i2 : Fin (m + 1)) (j2 : Fin (n + 1)),
        ori h1 h2 i j = ori h1 h2 i2 j2) →
      ∀ (i : Fin (m + 1)) (j : Fin (n + 1)),
        ∃ q, scale_max_min (ori h1 h2) i j = some q ∧ 0 ≤ q ∧ q ≤ 1) ∧
    ((∀ (i : Fin (m + 1)) (j : Fin (n + 1)), ft f h1 h2 i j ≠ none) →
      (¬ ∀ (i : Fin (m + 1)) (j : Fin (n + 1)) (i2 : Fin (m + 1)) (j2 : Fin (n + 1)),
        ft f h1 h2 i j = ft f h1 h2 i2 j2) →
      ∀ (i : Fin (m + 1)) (j : Fin (n + 1)),
        ∃ q, scale_max_min_nan (ft f h1 h2) i j = some q ∧ 0 ≤ q ∧ q ≤ 1) := by
  refine ⟨scale_max_min_mem (ori h1 h2), ?_⟩
  intro hdef hx i j
  have hsome : ∀ p : Fin (m + 1) × Fin (n + 1), (ft f h1 h2 p.1 p.2).isSome = true :=
    fun p => Option.ne_none_iff_isSome.mp (hdef p.1 p.2)
  unfold scale_max_min_nan
  rw [dif_pos hsome]
  refine scale_max_min_mem _ ?_ i j
  intro hc
  apply hx
  intro a b a2 b2
  calc ft f h1 h2 a b
      = some ((ft f h1 h2 a b).get (hsome ⟨a, b⟩)) := (Option.some_get _).symm
    _ = some ((ft f h1 h2 a2 b2).get (hsome ⟨a2, b2⟩)) := congrArg some (hc a b a2 b2)
    _ = ft f h1 h2 a2 b2 := Option.some_get _

/-- Witness for the amended C9 on the concrete 1×2 sample `wF`, `wH1`, `wH2`,
whose orientation map takes the two values 0 and π and whose phase map is
defined at both pixels, taking the two values 0 and arctan 1 = π/4. -/
theorem normalized_maps_spec_witness :
    (∃ q, scale_max_min (ori wH1 wH2) ⟨0, Nat.one_pos⟩ ⟨0, Nat.succ_pos 1⟩ = some q ∧
      0 ≤ q ∧ q ≤ 1) ∧
    (∃ q, scale_max_min_nan (ft wF wH1 wH2) ⟨0, Nat.one_pos⟩ ⟨0, Nat.succ_pos 1⟩ = some q ∧
      0 ≤ q ∧ q ≤ 1) := by
  have hori0 : ori wH1 wH2 ⟨0, Nat.one_pos⟩ ⟨0, Nat.succ_pos 1⟩ = 0 := by
    show Complex.arg ⟨1, -0⟩ = 0
    rw [show (⟨1, -0⟩ : ℂ) = 1 from by apply Complex.ext <;> simp, Complex.arg_one]
  have hori1 : ori wH1 wH2 ⟨0, Nat.one_pos⟩ ⟨1, Nat.one_lt_two⟩ = Real.pi := by
    show Complex.arg ⟨-1, -0⟩ = Real.pi
    rw [show (⟨-1, -0⟩ : ℂ) = -1 from by apply Complex.ext <;> simp, Complex.arg_neg_one]
  have hd1 : Real.sqrt ((1 : ℝ) ^ 2 + (0 : ℝ) ^ 2) = 1 := by
    rw [show (1 : ℝ) ^ 2 + (0 : ℝ) ^ 2 = 1 from by norm_num]
    exact Real.sqrt_one
  have hd2 : Real.sqrt ((-1 : ℝ) ^ 2 + (0 : ℝ) ^ 2) = 1 := by
    rw [show (-1 : ℝ) ^ 2 + (0 : ℝ) ^ 2 = 1 from by norm_num]
    exact Real.sqrt_one
  have hft0 : ∀ (i : Fin 1) (hb : (0 : ℕ) < 2), ft wF wH1 wH2 i ⟨0, hb⟩ = some 0 := by
    intro i hb
    show (if Real.sqrt ((1 : ℝ) ^ 2 + (0 : ℝ) ^ 2) = 0 then
            if (0 : ℝ) = 0 then none
            else if 0 < (0 : ℝ) then some (Real.pi / 2) else some (-(Real.pi / 2))
          else some (Real.arctan ((0 : ℝ) / Real.sqrt ((1 : ℝ) ^ 2 + (0 : ℝ) ^ 2)))) = some 0
    rw [hd1, if_neg (by norm_num : ¬(1 : ℝ) = 0)]
    norm_num [Real.arctan_zero]
  have hft1 : ∀ (i : Fin 1) (hb : (1 : ℕ) < 2),
      ft wF wH1 wH2 i ⟨1, hb⟩ = some (Real.arctan 1) := by
    intro i hb
    show (if Real.sqrt ((-1 : ℝ) ^ 2 + (0 : ℝ) ^ 2) = 0 then
            if (1 : ℝ) = 0 then none
            else if 0 < (1 : ℝ) then some (Real.pi / 2) else some (-(Real.pi / 2))
          else some (Real.arctan ((1 : ℝ) / Real.sqrt ((-1 : ℝ) ^ 2 + (0 : ℝ) ^ 2)))) =
        some (Real.arctan 1)
    rw [hd2, if_neg (by norm_num : ¬(1 : ℝ) = 0)]
    norm_num
  have hdef : ∀ (a : Fin 1) (b : Fin 2), ft wF wH1 wH2 a b ≠ none := by
    intro a b
    rcases b with ⟨bv, hb⟩
    interval_cases bv
    · rw [hft0 a]
      simp
    · rw [hft1 a]
      simp
  constructor
  · refine (normalized_maps_spec 0 1 wF wH1 wH2).1 ?_ _ _
    intro hall
    have := hall ⟨0, Nat.one_pos⟩ ⟨0, Nat.succ_pos 1⟩ ⟨0, Nat.one_pos⟩ ⟨1, Nat.one_lt_two⟩
    rw [hori0, hori1] at this
    exact Real.pi_ne_zero (Eq.symm this)
  · refine (normalized_maps_spec 0 1 wF wH1 wH2).2 hdef ?_ _ _
    intro hall
    have h01 := hall ⟨0, Nat.one_pos⟩ ⟨0, Nat.succ_pos 1⟩ ⟨0, Nat.one_pos⟩ ⟨1, Nat.one_lt_two⟩
    rw [hft0, hft1] at h01
    have hv : (0 : ℝ) = Real.arctan 1 := Option.some_inj.mp h01
    rw [Real.arctan_one] at hv
    have hp := Real.pi_pos
    linarith

/-! ### Claims C1 and C2 -/

/-- The dim-1 aggregate of the six per-scale quantities has shape `(N, H, W)`
exactly when the channel count and the scale count broadcast. -/
theorem aggShape_eq_iff (N C H W S : ℕ) :
    aggShape N C H W S = some [N, H, W] ↔ (C = S ∨ C = 1 ∨ S = 1) := by
  unfold aggShape IMFShape bcast2
  split_ifs with h1 h2 h3
  · simp [sumDim1Shape, h1]
  · simp [sumDim1Shape, h2]
  · simp [sumDim1Shape, h3]
  · simp [sumDim1Shape, h1, h2, h3]

/-- Counterexample to C2 as stated: with C = 2 input channels and nscale = 3
on a `(1, 2, 4, 4)` batch, the product `IM * lgf` of the `(1,2,4,4)` spectrum
with the `(3,4,4)` mask stack fails to broadcast, so no aggregate exists at
all — the code does not sum over scales and channels separately. -/
theorem agg_broadcast_counterexample : aggShape 1 2 4 4 3 = none := by decide

/-- Claim C2, amended: `forward` performs a single `torch.sum(·, dim=1)` over
the broadcast product of the `(N,C,H,W)` spectrum with the `(nscale,H,W)` mask
stack, and each of the six aggregates is a single `(N,H,W)` map exactly when
`C = nscale`, `C = 1`, or `nscale = 1`; when `C = 1` the summed dimension is
the scale dimension, when `nscale = 1` it is the channel dimension, when
`C = nscale > 1` channel `c` is paired with scale `c` — there is no separate
channel sum, and any other combination with `C > 1` and `nscale > 1` fails to
broadcast. -/
theorem agg_single_sum_amended (N C H W S : ℕ) :
    aggShape N C H W S = some [N, H, W] ↔ (C = S ∨ C = 1 ∨ S = 1) :=
  aggShape_eq_iff N C H W S

/-- Counterexample to C1 as stated: enabling `return_input` together with
`return_phase` on a `(1, 1, 2, 2)` batch makes `forward` stack the
`(1,1,2,2)` input echo with the `(1,2,2)` phase map; `torch.stack` requires
identical shapes, so the call fails instead of returning a `(1, 2, 2, 2)`
output. -/
theorem forward_stack_counterexample :
    forwardShape 1 1 2 2 1 ⟨true, true, false, false⟩ = none := by decide

/-- Claim C1, amended: for every `(N, C, H, W)` batch with broadcast-compatible
channel/scale counts (`C = 1`, `nscale = 1`, or `C = nscale`), and every
combination of the selection flags with `return_input` disabled and at least
one of the remaining flags enabled, `forward` returns shape `(N, K, H, W)`
where `K` is the number of enabled flags, and the channels appear in the fixed
order [phase, orientation, phase_asym] restricted to the enabled ones.  (With
`return_input` enabled the stack either fails — shape mismatch with the
`(N,H,W)` feature maps — or, when it is the only enabled flag, produces a
5-dimensional `(N,1,C,H,W)` output.) -/
theorem forward_shape_amended (N C H W S : ℕ) (fl : OutFlags)
    (hin : fl.return_input = false) (hbc : C = 1 ∨ S = 1 ∨ C = S)
    (hne : outFeats fl ≠ []) :
    forwardShape N C H W S fl = some [N, (outFeats fl).length, H, W] ∧
    outFeats fl = [Feat.phase, Feat.orient, Feat.pasym].filter (featEnabled fl) := by
  have hagg : aggShape N C H W S = some [N, H, W] :=
    (aggShape_eq_iff N C H W S).mpr (by tauto)
  obtain ⟨ri, rp, ro, ra⟩ := fl
  cases ri
  case true => exact Bool.noConfusion hin
  case false =>
  unfold forwardShape
  rw [hagg]
  cases rp <;> cases ro <;> cases ra <;>
    first
      | exact absurd rfl hne
      | exact ⟨by simp [outShapes, stackDim1, outFeats], rfl⟩

/-- Witness for the amended C1: a `(2, 1, 3, 3)` batch with two scales and
phase, orientation and phase asymmetry all enabled yields shape (2, 3, 3, 3)
with the three channels in fixed order. -/
theorem forward_shape_amended_witness :
    forwardShape 2 1 3 3 2 ⟨false, true, true, true⟩ =
      some [2, (outFeats ⟨false, true, true, true⟩).length, 3, 3] ∧
    outFeats ⟨false, true, true, true⟩ =
      [Feat.phase, Feat.orient, Feat.pasym].filter (featEnabled ⟨false, true, true, true⟩) :=
  forward_shape_amended 2 1 3 3 2 ⟨false, true, true, true⟩ rfl (Or.inl rfl) (by decide)

/-! ### Claim C7 -/

/-- The wavelength guard passes exactly when every supplied wavelength is
strictly positive. -/
theorem checkWls_iff (o : Option (List ℚ)) :
    checkWls o = true ↔ ∀ l ∈ o, ∀ w ∈ l, 0 < w := by
  cases o with
  | none => simp [checkWls]
  | some l => simp [checkWls, List.all_eq_true]

/-- The bandwidth guard passes exactly when any supplied bandwidth lies
strictly in (0, 1). -/
theorem checkSigmaonf_iff (o : Option ℚ) :
    checkSigmaonf o = true ↔ ∀ s ∈ o, 0 < s ∧ s < 1 := by
  cases o <;> simp [checkSigmaonf]

/-- Python `n % 1 == 0` on a rational means `n` is an integer. -/
theorem fracPart_eq_zero_iff (q : ℚ) : fracPart q = 0 ↔ ∃ k : ℤ, q = (k : ℚ) := by
  unfold fracPart
  constructor
  · intro h
    exact ⟨⌊q⌋, by linarith⟩
  · rintro ⟨k, rfl⟩
    rw [Int.floor_intCast]
    ring

/-- Claim C7: construction fails exactly when `nscale ≤ 0`, a supplied
`sigmaonf` lies outside (0,1), or a supplied wavelength is ≤ 0; building the
low-pass filter fails exactly when the cutoff lies outside [0, 0.5] or the
order is not an integer ≥ 1.  Each failure is an `Except.error` raised
synchronously at the corresponding check, and valid configurations raise
nothing. -/
theorem invalid_configuration_spec (cfg : MonoConfig) (cutoff n : ℚ) :
    (initMono cfg = Except.ok () ↔
      (0 < cfg.nscale ∧ (∀ l ∈ cfg.wls, ∀ w ∈ l, 0 < w) ∧
        (∀ s ∈ cfg.sigmaonf, 0 < s ∧ s < 1))) ∧
    (lowpassChecks cutoff n = Except.ok () ↔
      (0 ≤ cutoff ∧ cutoff ≤ 1 / 2 ∧ ∃ k : ℤ, 1 ≤ k ∧ n = (k : ℚ))) := by
  constructor
  · unfold initMono
    split_ifs with h1 h2 h3
    · exact iff_of_true rfl
        ⟨h1, (checkWls_iff cfg.wls).mp h2, (checkSigmaonf_iff cfg.sigmaonf).mp h3⟩
    · apply iff_of_false
      · simp
      · rintro ⟨-, -, hs⟩
        exact h3 ((checkSigmaonf_iff cfg.sigmaonf).mpr hs)
    · apply iff_of_false
      · simp
      · rintro ⟨-, hw, -⟩
        exact h2 ((checkWls_iff cfg.wls).mpr hw)
    · apply iff_of_false
      · simp
      · rintro ⟨hp, -, -⟩
        exact h1 hp
  · unfold lowpassChecks
    split_ifs with g1 g2
    · apply iff_of_false
      · simp
      · rintro ⟨hc0, hc5, -⟩
        rcases g1 with hg | hg
        · linarith
        · rw [show (0.5 : ℚ) = 1 / 2 from by norm_num] at hg
          linarith
    · apply iff_of_false
      · simp
      · rintro ⟨-, -, k, hk1, rfl⟩
        rcases g2 with hg | hg
        · exact hg ((fracPart_eq_zero_iff _).mpr ⟨k, rfl⟩)
        · have : (1 : ℚ) ≤ (k : ℚ) := by exact_mod_cast hk1
          linarith
    · push_neg at g1 g2
      refine iff_of_true rfl ⟨g1.1, ?_, ?_⟩
      · rw [show (1 : ℚ) / 2 = 0.5 from by norm_num]
        exact g1.2
      · obtain ⟨k, rfl⟩ := (fracPart_eq_zero_iff n).mp g2.1
        exact ⟨k, by exact_mod_cast g2.2, rfl⟩

/-- Witness for C7: the valid configuration `nscale = 2`, `sigmaonf = 0.55`,
`wls = [6, 30]` constructs without error, and the fixed low-pass parameters
`cutoff = 0.4`, `order = 10` pass the low-pass guards. -/
theorem invalid_configuration_spec_witness :
    initMono ⟨2, some (11 / 20), some [6, 30]⟩ = Except.ok () ∧
    lowpassChecks (2 / 5) 10 = Except.ok () := by
  constructor
  · refine ((invalid_configuration_spec ⟨2, some (11 / 20), some [6, 30]⟩ (2 / 5) 10).1).mpr
      ⟨by norm_num, ?_, ?_⟩
    · rintro l hl
      simp only [Option.mem_def, Option.some_inj] at hl
      subst hl
      intro w hw
      fin_cases hw <;> norm_num
    · rintro s hs
      simp only [Option.mem_def, Option.some_inj] at hs
      subst hs
      norm_num
  · exact ((invalid_configuration_spec ⟨2, some (11 / 20), some [6, 30]⟩ (2 / 5) 10).2).mpr
      ⟨by norm_num, by norm_num, ⟨10, by norm_num, by norm_num⟩⟩

end Mono2D
